import Mathlib

/-!
Verification of the torrent state cache of `tobz/transmission-exporter`.

The embedding models `cmd/transmission-exporter/torrent_collector.go`
(`TorrentCollector`, `NewTorrentCollector`, `TorrentCollector.Collect`) and
`NumericBool` from `cmd/transmission-exporter/main.go`.

Modelling decisions, each tied to the source:
* A Go `map[int]transmission.Torrent` is embedded as an association list
  `List (Int × Torrent)` with Go's update semantics: assignment
  `m[k] = v` overwrites the entry in place when the key is present and
  otherwise adds a fresh entry; `delete(m, k)` removes the entry with that
  key; indexing looks the key up.  Go's `range` over a map visits every
  entry exactly once in an unspecified order, which is embedded
  relationally: any permutation of the entries is a possible iteration.
* The `transmission.Torrent` record and the response of
  `Client.GetTorrents` live in library files of this repository that are
  not under `src/`; their shape (field names and uses) is fully determined
  by `TorrentCollector.Collect`, which reads `t.ID`, `t.Name`, `t.Status`,
  `t.Added`, `t.IsFinished`, `t.PercentDone`, `t.UploadRatio`,
  `t.RateDownload`, `t.RateUpload`, `t.UploadedEver`, `t.DownloadedEver`,
  `t.PeersConnected`, `t.PeersGettingFromUs`, `t.PeersSendingToUs`,
  `response.Torrents` and `response.RemovedTorrents`.  The two `float64`
  payload fields (`PercentDone`, `UploadRatio`) are carried as opaque
  integer payloads: the collector never computes with them, it only stores
  and republishes them, so only their identity matters here.
* The fetcher `Client.GetTorrents` is the external collaborator of the
  spec; it is a parameter `Bool → Except FetchError GetTorrentsResponse`.
  (`Collect` logs a fetch error and returns without emitting; the logged
  error is surfaced here as the `Except.error` component of the result.)
-/

namespace TransmissionExporter

/-- One torrent record, after `transmission.Torrent` as used by
`TorrentCollector.Collect`.  `percentDone` and `uploadRatio` are `float64`
payloads in Go, carried here as opaque integer payloads (never computed
with, only stored and republished). -/
structure Torrent where
  id : Int
  name : String
  status : Int
  added : Int
  isFinished : Bool
  percentDone : Int
  uploadRatio : Int
  rateDownload : Int
  rateUpload : Int
  uploadedEver : Int
  downloadedEver : Int
  peersConnected : Int
  peersGettingFromUs : Int
  peersSendingToUs : Int
deriving DecidableEq, Repr

/-- Response of `Client.GetTorrents`, as consumed by `Collect`: the batch of
records (`response.Torrents`) and the identities the daemon reports as
removed (`response.RemovedTorrents`). -/
structure GetTorrentsResponse where
  torrents : List Torrent
  removedTorrents : List Int
deriving DecidableEq, Repr

/-- The one error kind the cache surfaces (spec §7): the fetcher could not
produce a batch. -/
inductive FetchError where
  | fetchFailed (cause : String)
deriving DecidableEq, Repr

/-- The Go `map[int]transmission.Torrent` as an association list. -/
abbrev TorrentMap := List (Int × Torrent)

/-- Go map assignment `m[k] = v`: overwrite in place when the key is
present, otherwise add a fresh entry. -/
def goMapAssign (m : TorrentMap) (k : Int) (v : Torrent) : TorrentMap :=
  if m.any (fun p => p.1 == k) then
    m.map (fun p => if p.1 == k then (k, v) else p)
  else
    m ++ [(k, v)]

/-- Go `delete(m, k)`. -/
def goMapErase (m : TorrentMap) (k : Int) : TorrentMap :=
  m.filter (fun p => p.1 != k)

/-- Go map indexing `m[k]` (as an option). -/
def goMapFind (m : TorrentMap) (k : Int) : Option Torrent :=
  (m.find? (fun p => p.1 == k)).map Prod.snd

/-- The key set of the map, as a list. -/
def goMapKeys (m : TorrentMap) : List Int :=
  m.map Prod.fst

/-- First loop of the merge (torrent_collector.go lines 153-155):
`for _, t := range response.Torrents { tc.torrentMap[t.ID] = t }`. -/
def mergeTorrents (m : TorrentMap) (ts : List Torrent) : TorrentMap :=
  ts.foldl (fun acc t => goMapAssign acc t.id t) m

/-- Second loop of the merge (torrent_collector.go lines 156-158):
`for _, id := range response.RemovedTorrents { delete(tc.torrentMap, id) }`. -/
def applyRemovals (m : TorrentMap) (ids : List Int) : TorrentMap :=
  ids.foldl goMapErase m

/-- The whole in-lock map update of `Collect`: insertions first, then
removals. -/
def mergeResponse (m : TorrentMap) (r : GetTorrentsResponse) : TorrentMap :=
  applyRemovals (mergeTorrents m r.torrents) r.removedTorrents

/-- The mutable state of a `TorrentCollector`: the `recentlyActiveOnly`
flag and the `torrentMap` cache (the `prometheus.Desc` fields and the
logger and client handles carry no cache state). -/
structure TorrentCollector where
  recentlyActiveOnly : Bool
  torrentMap : TorrentMap
deriving DecidableEq, Repr

/-- `NewTorrentCollector`: the map starts empty and `recentlyActiveOnly` is
left at Go's zero value `false`. -/
def newTorrentCollector : TorrentCollector :=
  { recentlyActiveOnly := false, torrentMap := [] }

/-- The fetcher collaborator: `Client.GetTorrents(recentlyActiveOnly)`. -/
abbrev Fetcher := Bool → Except FetchError GetTorrentsResponse

/-- Deterministic rendering of `TorrentCollector.Collect`, using the
association list's own order as the map iteration order (one of the orders
Go may produce).  Returns the new collector state together with either the
fetch error (logged and returned early in Go, with no metrics emitted) or
the `activeTorrents` slice the metric emission loop runs over. -/
def collectD (fetch : Fetcher) (tc : TorrentCollector) :
    TorrentCollector × Except FetchError (List Torrent) :=
  match fetch tc.recentlyActiveOnly with
  | .error e => (tc, .error e)
  | .ok r =>
      let m2 := mergeResponse tc.torrentMap r
      let activeTorrents := m2.map Prod.snd
      ({ recentlyActiveOnly :=
           if activeTorrents.length > 0 then true else tc.recentlyActiveOnly,
         torrentMap := m2 },
       .ok activeTorrents)

/-- Relational rendering of `TorrentCollector.Collect`, faithful to Go's
unspecified map iteration order: the `for _, t := range tc.torrentMap` loop
that builds `activeTorrents` may visit the entries of the merged map in any
order, so any permutation of the merged entries is a possible
`activeTorrents`. -/
def Collect (fetch : Fetcher) (tc tc' : TorrentCollector)
    (out : Except FetchError (List Torrent)) : Prop :=
  match fetch tc.recentlyActiveOnly with
  | .error e => tc' = tc ∧ out = .error e
  | .ok r =>
      ∃ entries : TorrentMap,
        (mergeResponse tc.torrentMap r).Perm entries ∧
        tc' = { recentlyActiveOnly :=
                  if (entries.map Prod.snd).length > 0 then true
                  else tc.recentlyActiveOnly,
                torrentMap := mergeResponse tc.torrentMap r } ∧
        out = .ok (entries.map Prod.snd)

/-- Last record in a batch carrying a given identity: the value the
insertion loop `for _, t := range response.Torrents { tc.torrentMap[t.ID] = t }`
leaves for that key, since later assignments overwrite earlier ones. -/
def lastBatchRecord (ts : List Torrent) (k : Int) : Option Torrent :=
  ts.foldl (fun acc t => if t.id = k then some t else acc) none

/-- Well-formedness of the embedded Go map: keys are distinct (automatic
for a real Go map) and every entry was stored by `tc.torrentMap[t.ID] = t`,
so the value's `ID` equals its key. -/
def WF (m : TorrentMap) : Prop :=
  (goMapKeys m).Nodup ∧ ∀ p ∈ m, p.2.id = p.1

/-- Collector states reachable from `NewTorrentCollector` by any sequence
of `Collect` calls with any fetchers. -/
inductive Reachable : TorrentCollector → Prop where
  | init : Reachable newTorrentCollector
  | step {fetch : Fetcher} {tc tc' : TorrentCollector}
      {out : Except FetchError (List Torrent)} :
      Reachable tc → Collect fetch tc tc' out → Reachable tc'

/-- Atomic actions of one `Collect` call, at the granularity relevant to
the locking discipline: accesses to the shared `torrentMap` and
`recentlyActiveOnly` fields, the network fetch, the mutex operations, and
metric emission. -/
inductive Action where
  | readFlag
  | fetchCall (recentlyActiveOnly : Bool)
  | lockAcquire
  | mapAssignW (id : Int)
  | mapEraseW (id : Int)
  | mapIterateR
  | lockRelease
  | writeFlag
  | emitMetric (t : Torrent)
deriving DecidableEq, Repr

/-- The sequence of actions one `Collect` call performs, in source order
(torrent_collector.go lines 142-249): read `tc.recentlyActiveOnly` to build
the fetch argument, call `GetTorrents`; on error return at once; on success
`Lock()`, run the assignment loop, the deletion loop and the snapshot
iteration, `Unlock()`, then (only when `len(activeTorrents) > 0`) write
`tc.recentlyActiveOnly = true`, then emit metrics per snapshot entry. -/
def collectTrace (fetch : Fetcher) (tc : TorrentCollector) : List Action :=
  Action.readFlag :: Action.fetchCall tc.recentlyActiveOnly ::
    (match fetch tc.recentlyActiveOnly with
     | .error _ => []
     | .ok r =>
         Action.lockAcquire ::
           (r.torrents.map (fun t => Action.mapAssignW t.id) ++
            r.removedTorrents.map Action.mapEraseW ++
            [Action.mapIterateR, Action.lockRelease] ++
            (if ((mergeResponse tc.torrentMap r).map Prod.snd).length > 0 then
               [Action.writeFlag] else []) ++
            ((mergeResponse tc.torrentMap r).map Prod.snd).map Action.emitMetric))

/-- Lock-state transition: `lockAcquire` sets the mutex held, `lockRelease`
clears it, everything else leaves it. -/
def lockStateUpdate (held : Bool) (a : Action) : Bool :=
  match a with
  | Action.lockAcquire => true
  | Action.lockRelease => false
  | _ => held

/-- Pair each action of a trace with whether the mutex is held at it
(the two lock operations themselves are tagged with the state they
establish; every other action is tagged with the surrounding state). -/
def markHeld : List Action → Bool → List (Action × Bool)
  | [], _ => []
  | a :: rest, held =>
      (a, lockStateUpdate held a) :: markHeld rest (lockStateUpdate held a)

/-- Lock state after running a prefix of actions. -/
def lockStateAfter (l : List Action) (held : Bool) : Bool :=
  l.foldl lockStateUpdate held

/-- Reads or writes of the shared `torrentMap`. -/
def Action.isMapAccess : Action → Bool
  | Action.mapAssignW _ => true
  | Action.mapEraseW _ => true
  | Action.mapIterateR => true
  | _ => false

/-- Reads or writes of the shared `recentlyActiveOnly` flag. -/
def Action.isFlagAccess : Action → Bool
  | Action.readFlag => true
  | Action.writeFlag => true
  | _ => false

/-- The network fetch. -/
def Action.isFetchCall : Action → Bool
  | Action.fetchCall _ => true
  | _ => false

/-- Concrete torrent record used by witnesses and counterexamples. -/
def sampleTorrent (n : Int) (nm : String) : Torrent :=
  { id := n, name := nm, status := 0, added := 0, isFinished := false,
    percentDone := 0, uploadRatio := 0, rateDownload := 0, rateUpload := 0,
    uploadedEver := 0, downloadedEver := 0, peersConnected := 0,
    peersGettingFromUs := 0, peersSendingToUs := 0 }

/-- `NumericBool` from main.go. -/
def NumericBool (v : Bool) : String :=
  if v then "1" else "0"

/-- The deterministic rendering is one of the behaviours of `Collect`. -/
theorem collectD_Collect (fetch : Fetcher) (tc : TorrentCollector) :
    Collect fetch tc (collectD fetch tc).1 (collectD fetch tc).2 := by
  unfold Collect collectD
  cases fetch tc.recentlyActiveOnly with
  | error e => exact ⟨rfl, rfl⟩
  | ok r => exact ⟨mergeResponse tc.torrentMap r, List.Perm.refl _, rfl, rfl⟩

/-- Lookup in the empty map. -/
theorem goMapFind_nil (k : Int) : goMapFind [] k = none := rfl

/-- Lookup steps through a cons cell. -/
theorem goMapFind_cons (p : Int × Torrent) (m : TorrentMap) (k : Int) :
    goMapFind (p :: m) k = if p.1 == k then some p.2 else goMapFind m k := by
  by_cases h : (p.1 == k) = true
  · simp [goMapFind, List.find?_cons_of_pos _ h, h]
  · simp [goMapFind, List.find?_cons_of_neg _ h, h]

/-- Overwriting key `k` does not change lookups at other keys. -/
theorem goMapFind_map_overwrite_ne (m : TorrentMap) (k : Int) (v : Torrent)
    (k' : Int) (hne : k' ≠ k) :
    goMapFind (m.map (fun p => if p.1 == k then (k, v) else p)) k' =
      goMapFind m k' := by
  induction m with
  | nil => rfl
  | cons p m ih =>
      simp only [List.map_cons]
      by_cases hp : (p.1 == k) = true
      · have hpk : p.1 = k := eq_of_beq hp
        have h1 : ¬ ((((k : Int), v)).1 == k') = true := by
          intro hb
          exact hne (eq_of_beq hb).symm
        have h2 : ¬ ((p.1 == k') = true) := by
          intro hb
          exact hne ((eq_of_beq hb).symm.trans hpk)
        rw [if_pos hp, goMapFind_cons, goMapFind_cons, if_neg h1, if_neg h2]
        exact ih
      · rw [if_neg hp, goMapFind_cons, goMapFind_cons]
        by_cases hq : (p.1 == k') = true
        · rw [if_pos hq, if_pos hq]
        · rw [if_neg hq, if_neg hq]
          exact ih

/-- After the overwrite pass, looking up `k` finds the new value, provided
some entry carried key `k` (the `any` guard of `goMapAssign`). -/
theorem goMapFind_map_overwrite_eq (m : TorrentMap) (k : Int) (v : Torrent)
    (h : m.any (fun p => p.1 == k) = true) :
    goMapFind (m.map (fun p => if p.1 == k then (k, v) else p)) k = some v := by
  induction m with
  | nil => cases h
  | cons p m ih =>
      simp only [List.any_cons, Bool.or_eq_true] at h
      simp only [List.map_cons]
      by_cases hp : (p.1 == k) = true
      · rw [if_pos hp, goMapFind_cons, if_pos (by simp : ((((k : Int), v)).1 == k) = true)]
      · rw [if_neg hp, goMapFind_cons, if_neg hp]
        rcases h with h | h
        · exact absurd h hp
        · exact ih h

/-- Go map assignment, seen through lookup: `m[k] = v` makes lookup at `k`
return `v` and leaves every other key unchanged. -/
theorem goMapFind_assign (m : TorrentMap) (k : Int) (v : Torrent) (k' : Int) :
    goMapFind (goMapAssign m k v) k' = if k' = k then some v else goMapFind m k' := by
  unfold goMapAssign
  by_cases hany : m.any (fun p => p.1 == k) = true
  · rw [if_pos hany]
    by_cases hk : k' = k
    · subst hk
      rw [if_pos rfl]
      exact goMapFind_map_overwrite_eq m k' v hany
    · rw [if_neg hk]
      exact goMapFind_map_overwrite_ne m k v k' hk
  · rw [if_neg hany]
    unfold goMapFind
    rw [List.find?_append]
    by_cases hk : k' = k
    · subst hk
      have hnone : m.find? (fun p => p.1 == k') = none := by
        rw [List.find?_eq_none]
        intro p hp hbeq
        exact hany (List.any_eq_true.mpr ⟨p, hp, hbeq⟩)
      simp [hnone, List.find?]
    · have h1 : ((k : Int) == k') = false := beq_false_of_ne (Ne.symm hk)
      simp [List.find?, h1, hk]

/-- Go `delete`, seen through lookup: the deleted key is gone and every
other key is unchanged. -/
theorem goMapFind_erase (m : TorrentMap) (k k' : Int) :
    goMapFind (goMapErase m k) k' = if k' = k then none else goMapFind m k' := by
  induction m with
  | nil =>
      unfold goMapErase
      simp only [List.filter_nil, goMapFind_nil]
      split <;> rfl
  | cons p m ih =>
      unfold goMapErase at ih ⊢
      rw [List.filter_cons]
      by_cases hp : (p.1 != k) = true
      · rw [if_pos hp, goMapFind_cons, goMapFind_cons]
        by_cases hq : (p.1 == k') = true
        · have hpk : p.1 ≠ k := bne_iff_ne.mp hp
          have hk : k' ≠ k := fun h => hpk ((eq_of_beq hq).trans h)
          rw [if_pos hq, if_neg hk, if_pos hq]
        · rw [if_neg hq, if_neg hq]
          exact ih
      · have hpk : p.1 = k := by
          by_contra hne
          exact hp (bne_iff_ne.mpr hne)
        rw [if_neg hp, ih, goMapFind_cons]
        by_cases hk : k' = k
        · rw [if_pos hk, if_pos hk]
        · have hq : ¬ ((p.1 == k') = true) := fun hb =>
            hk ((eq_of_beq hb).symm.trans hpk)
          rw [if_neg hk, if_neg hk, if_neg hq]

/-- Fold with a last-wins accumulator, started from an arbitrary
accumulator. -/
theorem foldl_lastBatchRecord (ts : List Torrent) (k : Int) (acc : Option Torrent) :
    ts.foldl (fun acc t => if t.id = k then some t else acc) acc =
      match lastBatchRecord ts k with
      | some t => some t
      | none => acc := by
  induction ts generalizing acc with
  | nil => rfl
  | cons t ts ih =>
      rw [List.foldl_cons, ih]
      have hlast : lastBatchRecord (t :: ts) k =
          match lastBatchRecord ts k with
          | some u => some u
          | none => if t.id = k then some t else none := by
        show ts.foldl (fun acc t => if t.id = k then some t else acc)
            (if t.id = k then some t else none) =
          match lastBatchRecord ts k with
          | some u => some u
          | none => if t.id = k then some t else none
        exact ih _
      rw [hlast]
      cases lastBatchRecord ts k with
      | some u => rfl
      | none => by_cases h : t.id = k <;> simp [h]

/-- The insertion loop, seen through lookup: a key present in the batch
ends up at its last batch record, any other key is unchanged. -/
theorem mergeTorrents_find (ts : List Torrent) (m : TorrentMap) (k : Int) :
    goMapFind (mergeTorrents m ts) k =
      match lastBatchRecord ts k with
      | some t => some t
      | none => goMapFind m k := by
  induction ts generalizing m with
  | nil => rfl
  | cons t ts ih =>
      unfold mergeTorrents at ih ⊢
      rw [List.foldl_cons, ih]
      have hlast : lastBatchRecord (t :: ts) k =
          match lastBatchRecord ts k with
          | some u => some u
          | none => if t.id = k then some t else none := by
        show ts.foldl (fun acc t => if t.id = k then some t else acc)
            (if t.id = k then some t else none) =
          match lastBatchRecord ts k with
          | some u => some u
          | none => if t.id = k then some t else none
        exact foldl_lastBatchRecord ts k _
      rw [hlast]
      cases lastBatchRecord ts k with
      | some u => rfl
      | none =>
          rw [goMapFind_assign]
          by_cases h : t.id = k
          · rw [if_pos h.symm, if_pos h]
          · rw [if_neg (fun hh => h (Eq.symm hh)), if_neg h]

/-- The deletion loop, seen through lookup: every listed key is gone, any
other key is unchanged. -/
theorem applyRemovals_find (ids : List Int) (m : TorrentMap) (k : Int) :
    goMapFind (applyRemovals m ids) k = if k ∈ ids then none else goMapFind m k := by
  induction ids generalizing m with
  | nil => simp [applyRemovals]
  | cons i ids ih =>
      unfold applyRemovals at ih ⊢
      rw [List.foldl_cons, ih, goMapFind_erase]
      by_cases hk : k = i
      · subst hk
        simp only [List.mem_cons, true_or, if_true]
        split <;> rfl
      · simp [List.mem_cons, hk]

/-- The whole merge, seen through lookup: removed keys are gone; otherwise
a key present in the batch maps to its last batch record, and any other
key keeps its previous value. -/
theorem mergeResponse_find (m : TorrentMap) (r : GetTorrentsResponse) (k : Int) :
    goMapFind (mergeResponse m r) k =
      if k ∈ r.removedTorrents then none
      else
        match lastBatchRecord r.torrents k with
        | some t => some t
        | none => goMapFind m k := by
  unfold mergeResponse
  rw [applyRemovals_find, mergeTorrents_find]

/-- A lookup succeeds exactly at the keys of the map. -/
theorem goMapFind_isSome_iff (m : TorrentMap) (k : Int) :
    (goMapFind m k).isSome = true ↔ k ∈ goMapKeys m := by
  unfold goMapFind goMapKeys
  rw [Option.isSome_map']
  rw [List.find?_isSome]
  constructor
  · rintro ⟨p, hpm, hpk⟩
    exact List.mem_map.mpr ⟨p, hpm, eq_of_beq hpk⟩
  · intro h
    obtain ⟨p, hpm, hpk⟩ := List.mem_map.mp h
    exact ⟨p, hpm, by simp [hpk]⟩

/-- The empty map is well formed. -/
theorem WF_nil : WF [] :=
  ⟨List.nodup_nil, by intro p hp; cases hp⟩

/-- The overwrite pass of `goMapAssign` does not change the key list. -/
theorem goMapKeys_assign_of_any (m : TorrentMap) (k : Int) (v : Torrent) :
    goMapKeys (m.map (fun p => if p.1 == k then (k, v) else p)) = goMapKeys m := by
  unfold goMapKeys
  rw [List.map_map]
  apply List.map_congr_left
  intro p _
  by_cases hpk : (p.1 == k) = true
  · simp only [Function.comp_apply, if_pos hpk]
    exact (eq_of_beq hpk).symm
  · simp only [Function.comp_apply, if_neg hpk]

/-- Go map assignment preserves well-formedness when the stored value's
`ID` is its key (as in `tc.torrentMap[t.ID] = t`). -/
theorem WF_assign (m : TorrentMap) (k : Int) (v : Torrent) (hv : v.id = k)
    (h : WF m) : WF (goMapAssign m k v) := by
  obtain ⟨hnd, hvals⟩ := h
  unfold goMapAssign
  by_cases hany : m.any (fun p => p.1 == k) = true
  · rw [if_pos hany]
    constructor
    · rw [goMapKeys_assign_of_any m k v]
      exact hnd
    · intro p hp
      obtain ⟨q, hq, hqe⟩ := List.mem_map.mp hp
      by_cases hqk : (q.1 == k) = true
      · rw [if_pos hqk] at hqe
        rw [← hqe]
        exact hv
      · rw [if_neg hqk] at hqe
        rw [← hqe]
        exact hvals q hq
  · rw [if_neg hany]
    constructor
    · unfold goMapKeys
      rw [List.map_append, List.nodup_append]
      refine ⟨hnd, List.nodup_singleton _, ?_⟩
      intro a ha hb
      simp only [List.map_cons, List.map_nil, List.mem_singleton] at hb
      subst hb
      obtain ⟨p, hp, hpk⟩ := List.mem_map.mp ha
      exact hany (List.any_eq_true.mpr ⟨p, hp, by simp [hpk]⟩)
    · intro p hp
      rcases List.mem_append.mp hp with hp | hp
      · exact hvals p hp
      · rw [List.mem_singleton.mp hp]
        exact hv

/-- Go `delete` preserves well-formedness. -/
theorem WF_erase (m : TorrentMap) (k : Int) (h : WF m) : WF (goMapErase m k) := by
  obtain ⟨hnd, hvals⟩ := h
  constructor
  · exact (List.Sublist.map Prod.fst (List.filter_sublist m)).nodup hnd
  · intro p hp
    exact hvals p (List.mem_of_mem_filter hp)

/-- The insertion loop preserves well-formedness. -/
theorem WF_mergeTorrents (ts : List Torrent) (m : TorrentMap) (h : WF m) :
    WF (mergeTorrents m ts) := by
  induction ts generalizing m with
  | nil => exact h
  | cons t ts ih =>
      unfold mergeTorrents at ih ⊢
      rw [List.foldl_cons]
      exact ih _ (WF_assign m t.id t rfl h)

/-- The deletion loop preserves well-formedness. -/
theorem WF_applyRemovals (ids : List Int) (m : TorrentMap) (h : WF m) :
    WF (applyRemovals m ids) := by
  induction ids generalizing m with
  | nil => exact h
  | cons i ids ih =>
      unfold applyRemovals at ih ⊢
      rw [List.foldl_cons]
      exact ih _ (WF_erase m i h)

/-- The whole merge preserves well-formedness. -/
theorem WF_mergeResponse (m : TorrentMap) (r : GetTorrentsResponse) (h : WF m) :
    WF (mergeResponse m r) :=
  WF_applyRemovals r.removedTorrents (mergeTorrents m r.torrents)
    (WF_mergeTorrents r.torrents m h)

/-- One `Collect` call keeps the map well formed. -/
theorem collect_WF {fetch : Fetcher} {tc tc' : TorrentCollector}
    {out : Except FetchError (List Torrent)}
    (hc : Collect fetch tc tc' out) (h : WF tc.torrentMap) :
    WF tc'.torrentMap := by
  unfold Collect at hc
  cases hf : fetch tc.recentlyActiveOnly with
  | error e =>
      rw [hf] at hc
      rw [hc.1]
      exact h
  | ok r =>
      rw [hf] at hc
      obtain ⟨entries, hperm, htc, hout⟩ := hc
      rw [htc]
      exact WF_mergeResponse tc.torrentMap r h

/-- Every reachable collector state has a well-formed map. -/
theorem reachable_WF {tc : TorrentCollector} (h : Reachable tc) :
    WF tc.torrentMap := by
  induction h with
  | init => exact WF_nil
  | step hr hc ih => exact collect_WF hc ih

/-- In a well-formed map, the snapshot of values holds exactly one record
per key of the map, and none for any other identity. -/
theorem countP_snapshot (m : TorrentMap) (k : Int) (h : WF m) :
    (m.map Prod.snd).countP (fun t => t.id == k) =
      if k ∈ goMapKeys m then 1 else 0 := by
  obtain ⟨hnd, hvals⟩ := h
  rw [List.countP_map]
  have h1 : m.countP ((fun t => t.id == k) ∘ Prod.snd) =
      m.countP (fun p => p.1 == k) := by
    apply List.countP_congr
    intro p hp
    simp [Function.comp, hvals p hp]
  have h2 : m.countP (fun p => p.1 == k) = (goMapKeys m).count k := by
    rw [List.count_eq_countP]
    unfold goMapKeys
    rw [List.countP_map]
    rfl
  rw [h1, h2]
  by_cases hk : k ∈ goMapKeys m
  · rw [if_pos hk]
    exact List.count_eq_one_of_mem hnd hk
  · rw [if_neg hk]
    exact List.count_eq_zero_of_not_mem hk

/-- A batch none of whose records carries identity `k` leaves no last
record for `k`. -/
theorem lastBatchRecord_eq_none (ts : List Torrent) (k : Int)
    (h : ∀ t ∈ ts, t.id ≠ k) : lastBatchRecord ts k = none := by
  induction ts with
  | nil => rfl
  | cons t ts ih =>
      unfold lastBatchRecord at ih ⊢
      rw [List.foldl_cons, if_neg (h t (List.mem_cons_self t ts))]
      have htail : ∀ u ∈ ts, u.id ≠ k := fun u hu => h u (List.mem_cons_of_mem t hu)
      calc ts.foldl (fun acc t => if t.id = k then some t else acc) none
          = lastBatchRecord ts k := rfl
        _ = none := ih htail

/-- C3: if the fetch fails, `Collect` surfaces exactly the fetch error,
performs no merge, and leaves the whole collector state — the torrent map
and the `recentlyActiveOnly` flag — exactly as it was; no metrics are
produced for that cycle (the result carries no torrent list). -/
theorem c3_fetch_failure_atomic (fetch : Fetcher) (tc : TorrentCollector)
    (cause : String)
    (h : fetch tc.recentlyActiveOnly = .error (.fetchFailed cause)) :
    collectD fetch tc = (tc, .error (.fetchFailed cause)) ∧
    ∀ tc' out, Collect fetch tc tc' out →
      tc' = tc ∧ out = .error (.fetchFailed cause) := by
  constructor
  · unfold collectD
    rw [h]
  · intro tc' out hc
    unfold Collect at hc
    rw [h] at hc
    exact hc

/-- C3 witness: a failing fetch on the fresh collector returns the error
and the untouched state. -/
theorem c3_witness :
    collectD (fun _ => Except.error (FetchError.fetchFailed "connection refused"))
        newTorrentCollector =
      (newTorrentCollector, Except.error (FetchError.fetchFailed "connection refused")) :=
  (c3_fetch_failure_atomic
    (fun _ => Except.error (FetchError.fetchFailed "connection refused"))
    newTorrentCollector "connection refused" rfl).1

/-- C5: the mode passed to the fetcher is exactly the current
`recentlyActiveOnly` flag (`false` means unrestricted, `true` restricted):
the trace of a poll calls the fetcher with that mode and no other, the
whole outcome depends on the fetcher only through its value at that mode,
and the flag is `false` right after `NewTorrentCollector`, so the first
poll always issues an unrestricted fetch. -/
theorem c5_fetch_mode_from_flag :
    newTorrentCollector.recentlyActiveOnly = false ∧
    (∀ (fetch : Fetcher) (tc : TorrentCollector) (m : Bool),
      Action.fetchCall m ∈ collectTrace fetch tc ↔ m = tc.recentlyActiveOnly) ∧
    (∀ (f₁ f₂ : Fetcher) (tc : TorrentCollector),
      f₁ tc.recentlyActiveOnly = f₂ tc.recentlyActiveOnly →
      collectD f₁ tc = collectD f₂ tc) := by
  refine ⟨rfl, ?_, ?_⟩
  · intro fetch tc m
    constructor
    · intro hmem
      unfold collectTrace at hmem
      cases hf : fetch tc.recentlyActiveOnly with
      | error e =>
          rw [hf] at hmem
          simp at hmem
          exact hmem
      | ok r =>
          rw [hf] at hmem
          simp at hmem
          exact hmem
    · intro hm
      rw [hm]
      unfold collectTrace
      exact List.mem_cons_of_mem _ (List.mem_cons_self _ _)
  · intro f₁ f₂ tc h
    unfold collectD
    rw [h]

/-- C5 witness: the fresh collector requests an unrestricted fetch, and a
fetcher is only consulted at the current flag value. -/
theorem c5_witness :
    (Action.fetchCall false ∈
      collectTrace (fun _ => Except.error (FetchError.fetchFailed "e"))
        newTorrentCollector) ∧
    collectD (fun _ => Except.ok (⟨[], []⟩ : GetTorrentsResponse)) newTorrentCollector =
      collectD
        (fun b => if b then Except.error (FetchError.fetchFailed "x")
                  else Except.ok (⟨[], []⟩ : GetTorrentsResponse))
        newTorrentCollector :=
  ⟨(c5_fetch_mode_from_flag.2.1 _ newTorrentCollector false).mpr rfl,
   c5_fetch_mode_from_flag.2.2 _ _ newTorrentCollector rfl⟩

/-- C9: within a single merge, removals are applied after insertions: an
identity that appears both as a record in the response's torrent batch and
in the response's removed-torrents list is absent from the mapping and
from the returned snapshot after that merge. -/
theorem c9_removals_after_insertions (fetch : Fetcher) (tc tc' : TorrentCollector)
    (out : Except FetchError (List Torrent)) (r : GetTorrentsResponse) (k : Int)
    (hwf : WF tc.torrentMap)
    (hc : Collect fetch tc tc' out)
    (hf : fetch tc.recentlyActiveOnly = .ok r)
    (hin : ∃ t ∈ r.torrents, t.id = k)
    (hrem : k ∈ r.removedTorrents) :
    goMapFind tc'.torrentMap k = none ∧
    ∀ ts, out = .ok ts → ∀ t ∈ ts, t.id ≠ k := by
  unfold Collect at hc
  rw [hf] at hc
  obtain ⟨entries, hperm, htc, hout⟩ := hc
  have hwf2 : WF (mergeResponse tc.torrentMap r) := WF_mergeResponse _ _ hwf
  constructor
  · rw [htc]
    show goMapFind (mergeResponse tc.torrentMap r) k = none
    rw [mergeResponse_find, if_pos hrem]
  · intro ts hts t htmem
    rw [hout] at hts
    injection hts with hts
    rw [← hts] at htmem
    obtain ⟨p, hpm, hpe⟩ := List.mem_map.mp htmem
    have hpm2 : p ∈ mergeResponse tc.torrentMap r := hperm.mem_iff.mpr hpm
    intro hidk
    have hkey : p.1 = k := by rw [← hwf2.2 p hpm2, hpe, hidk]
    have hsome : (goMapFind (mergeResponse tc.torrentMap r) k).isSome = true := by
      rw [goMapFind_isSome_iff]
      exact List.mem_map.mpr ⟨p, hpm2, hkey⟩
    rw [mergeResponse_find, if_pos hrem] at hsome
    cases hsome

/-- C9 witness: identity 1 is both in the batch and in the removed list;
after the poll it is absent from the map. -/
theorem c9_witness :
    goMapFind
      ((collectD
          (fun _ => Except.ok (⟨[sampleTorrent 1 "a"], [1]⟩ : GetTorrentsResponse))
          newTorrentCollector).1).torrentMap 1 = none :=
  (c9_removals_after_insertions
      (fun _ => Except.ok (⟨[sampleTorrent 1 "a"], [1]⟩ : GetTorrentsResponse))
      newTorrentCollector _ _ (⟨[sampleTorrent 1 "a"], [1]⟩ : GetTorrentsResponse) 1
      WF_nil (collectD_Collect _ _) rfl
      ⟨sampleTorrent 1 "a", List.mem_cons_self _ _, rfl⟩
      (List.mem_cons_self _ _)).1

/-- C10: `NumericBool` returns `"1"` exactly on `true` and `"0"` exactly on
`false`, and these are its only possible outputs. -/
theorem c10_numeric_bool :
    ∀ v : Bool,
      (NumericBool v = "1" ↔ v = true) ∧ (NumericBool v = "0" ↔ v = false) := by
  decide

/-- C1 counterexample: identity 1 is present in the cache after merging
batch B1, is absent from batch B2's torrent records, and yet is gone after
merging B2 — because B2's removed-torrents list names it. Absence from a
batch alone is therefore not what the code keys removal on, and the claim
as stated is false. -/
theorem c1_counterexample :
    goMapFind
        ((collectD
            (fun _ => Except.ok (⟨[sampleTorrent 1 "a"], []⟩ : GetTorrentsResponse))
            newTorrentCollector).1).torrentMap 1 = some (sampleTorrent 1 "a") ∧
    (∀ t ∈ (⟨[], [1]⟩ : GetTorrentsResponse).torrents, t.id ≠ 1) ∧
    goMapFind
        ((collectD (fun _ => Except.ok (⟨[], [1]⟩ : GetTorrentsResponse))
            ((collectD
                (fun _ => Except.ok (⟨[sampleTorrent 1 "a"], []⟩ : GetTorrentsResponse))
                newTorrentCollector).1)).1).torrentMap 1 = none := by
  refine ⟨by decide, by decide, by decide⟩

/-- C1 (amended): after a successful poll, every identity that is absent
from the response's torrent batch AND not listed in the response's
removed-torrents list is mapped exactly as before the poll — it is neither
removed nor changed. (The amendment adds the removed-torrents condition,
which the counterexample shows is necessary.) -/
theorem c1_absent_unremoved_unchanged (fetch : Fetcher) (tc tc' : TorrentCollector)
    (out : Except FetchError (List Torrent)) (r : GetTorrentsResponse) (k : Int)
    (hc : Collect fetch tc tc' out)
    (hf : fetch tc.recentlyActiveOnly = .ok r)
    (habsent : ∀ t ∈ r.torrents, t.id ≠ k)
    (hunrem : k ∉ r.removedTorrents) :
    goMapFind tc'.torrentMap k = goMapFind tc.torrentMap k := by
  unfold Collect at hc
  rw [hf] at hc
  obtain ⟨entries, hperm, htc, hout⟩ := hc
  rw [htc]
  show goMapFind (mergeResponse tc.torrentMap r) k = goMapFind tc.torrentMap k
  rw [mergeResponse_find, if_neg hunrem, lastBatchRecord_eq_none r.torrents k habsent]

/-- C1 witness: identity 1, untouched by a batch that only carries
identity 2 and removes nothing, keeps its record. -/
theorem c1_witness :
    goMapFind
        ((collectD
            (fun _ => Except.ok (⟨[sampleTorrent 2 "b"], []⟩ : GetTorrentsResponse))
            ((collectD
                (fun _ => Except.ok (⟨[sampleTorrent 1 "a"], []⟩ : GetTorrentsResponse))
                newTorrentCollector).1)).1).torrentMap 1 =
      goMapFind
        ((collectD
            (fun _ => Except.ok (⟨[sampleTorrent 1 "a"], []⟩ : GetTorrentsResponse))
            newTorrentCollector).1).torrentMap 1 :=
  c1_absent_unremoved_unchanged _ _ _ _ (⟨[sampleTorrent 2 "b"], []⟩ : GetTorrentsResponse) 1
    (collectD_Collect _ _) rfl (by decide) (by decide)

/-- C2 counterexample: identity 1 is merged in by the first poll (the key
list of the mapping is `[1]`), yet the second poll's response removes it:
the second snapshot is empty, so it does not contain one entry per
identity ever merged in, and the domain of the mapping shrank. Ordinary
polling does delete entries, via the removed-torrents list. -/
theorem c2_counterexample :
    goMapKeys
        ((collectD
            (fun _ => Except.ok (⟨[sampleTorrent 1 "a"], []⟩ : GetTorrentsResponse))
            newTorrentCollector).1).torrentMap = [1] ∧
    (collectD (fun _ => Except.ok (⟨[], [1]⟩ : GetTorrentsResponse))
        ((collectD
            (fun _ => Except.ok (⟨[sampleTorrent 1 "a"], []⟩ : GetTorrentsResponse))
            newTorrentCollector).1)).2 = Except.ok [] := by
  refine ⟨by decide, rfl⟩

/-- C2 (amended): the snapshot returned by a successful poll has exactly
one entry per distinct identity currently in the mapping (and none for any
other identity); and an identity in the mapping is preserved by every poll
whose response does not list it among the removed torrents — deletion
happens only through a removed-torrents list, never through mere absence. -/
theorem c2_snapshot_one_entry_per_key (fetch : Fetcher) (tc tc' : TorrentCollector)
    (out : Except FetchError (List Torrent)) (r : GetTorrentsResponse) (k : Int)
    (hwf : WF tc.torrentMap)
    (hc : Collect fetch tc tc' out)
    (hf : fetch tc.recentlyActiveOnly = .ok r) :
    (∀ ts, out = .ok ts →
      ts.countP (fun t => t.id == k) =
        if k ∈ goMapKeys tc'.torrentMap then 1 else 0) ∧
    (k ∈ goMapKeys tc.torrentMap → k ∉ r.removedTorrents →
      k ∈ goMapKeys tc'.torrentMap) := by
  unfold Collect at hc
  rw [hf] at hc
  obtain ⟨entries, hperm, htc, hout⟩ := hc
  have hwf2 : WF (mergeResponse tc.torrentMap r) := WF_mergeResponse _ _ hwf
  constructor
  · intro ts hts
    rw [hout] at hts
    injection hts with hts
    rw [← hts, htc]
    show (entries.map Prod.snd).countP (fun t => t.id == k) =
      if k ∈ goMapKeys (mergeResponse tc.torrentMap r) then 1 else 0
    rw [← List.Perm.countP_eq (fun t => t.id == k) (hperm.map Prod.snd)]
    exact countP_snapshot _ k hwf2
  · intro hk hunrem
    rw [htc]
    show k ∈ goMapKeys (mergeResponse tc.torrentMap r)
    rw [← goMapFind_isSome_iff] at hk ⊢
    rw [mergeResponse_find, if_neg hunrem]
    cases hl : lastBatchRecord r.torrents k with
    | some t => rfl
    | none => exact hk

/-- C2 witness: after merging a one-record batch into the fresh collector,
the snapshot counts exactly one record with identity 1, and identity 2
none. -/
theorem c2_witness :
    (([sampleTorrent 1 "a"] : List Torrent).countP (fun t => t.id == 1) =
      if (1 : Int) ∈ goMapKeys
          ((collectD
              (fun _ => Except.ok (⟨[sampleTorrent 1 "a"], []⟩ : GetTorrentsResponse))
              newTorrentCollector).1).torrentMap then 1 else 0) ∧
    (([sampleTorrent 1 "a"] : List Torrent).countP (fun t => t.id == 2) =
      if (2 : Int) ∈ goMapKeys
          ((collectD
              (fun _ => Except.ok (⟨[sampleTorrent 1 "a"], []⟩ : GetTorrentsResponse))
              newTorrentCollector).1).torrentMap then 1 else 0) :=
  ⟨(c2_snapshot_one_entry_per_key _ _ _ _
        (⟨[sampleTorrent 1 "a"], []⟩ : GetTorrentsResponse) 1 WF_nil
        (collectD_Collect _ _) rfl).1 [sampleTorrent 1 "a"] rfl,
   (c2_snapshot_one_entry_per_key _ _ _ _
        (⟨[sampleTorrent 1 "a"], []⟩ : GetTorrentsResponse) 2 WF_nil
        (collectD_Collect _ _) rfl).1 [sampleTorrent 1 "a"] rfl⟩

/-- C4 counterexample: the fetched batch is non-empty (it carries the
record for identity 1), the poll succeeds, and yet the flag stays `false`:
the code tests `len(activeTorrents) > 0` — the post-merge map — and here
the removed-torrents list empties the map again. Batch non-emptiness is
not the condition the code uses. -/
theorem c4_counterexample :
    ((⟨[sampleTorrent 1 "a"], [1]⟩ : GetTorrentsResponse).torrents ≠ []) ∧
    ((fun _ => Except.ok (⟨[sampleTorrent 1 "a"], [1]⟩ : GetTorrentsResponse) : Fetcher)
        newTorrentCollector.recentlyActiveOnly =
      Except.ok (⟨[sampleTorrent 1 "a"], [1]⟩ : GetTorrentsResponse)) ∧
    (collectD
        (fun _ => Except.ok (⟨[sampleTorrent 1 "a"], [1]⟩ : GetTorrentsResponse))
        newTorrentCollector).1.recentlyActiveOnly = false := by
  refine ⟨by decide, rfl, by decide⟩

/-- C4 (amended): after a successful poll whose returned snapshot is
non-empty (the code's condition `len(activeTorrents) > 0`, i.e. the
post-merge map is non-empty — not, as claimed, the fetched batch), the
`recentlyActiveOnly` flag is `true`; and the transition is one-way: no
poll, successful or failed, ever resets a `true` flag to `false`. -/
theorem c4_flag_one_way (fetch : Fetcher) (tc tc' : TorrentCollector)
    (out : Except FetchError (List Torrent))
    (hc : Collect fetch tc tc' out) :
    (∀ ts, out = .ok ts → ts ≠ [] → tc'.recentlyActiveOnly = true) ∧
    (tc.recentlyActiveOnly = true → tc'.recentlyActiveOnly = true) := by
  unfold Collect at hc
  cases hf : fetch tc.recentlyActiveOnly with
  | error e =>
      rw [hf] at hc
      obtain ⟨h1, h2⟩ := hc
      constructor
      · intro ts hts
        rw [h2] at hts
        cases hts
      · intro h
        rw [h1]
        exact h
  | ok r =>
      rw [hf] at hc
      obtain ⟨entries, hperm, htc, hout⟩ := hc
      constructor
      · intro ts hts hne
        rw [hout] at hts
        injection hts with hts
        rw [htc]
        show (if (entries.map Prod.snd).length > 0 then true
              else tc.recentlyActiveOnly) = true
        have hlen : (entries.map Prod.snd).length > 0 := by
          rw [hts]
          exact List.length_pos.mpr hne
        rw [if_pos hlen]
      · intro h
        rw [htc]
        show (if (entries.map Prod.snd).length > 0 then true
              else tc.recentlyActiveOnly) = true
        by_cases hl : (entries.map Prod.snd).length > 0
        · rw [if_pos hl]
        · rw [if_neg hl]
          exact h

/-- C4 witness: a poll producing a non-empty snapshot sets the flag. -/
theorem c4_witness :
    (collectD
        (fun _ => Except.ok (⟨[sampleTorrent 1 "a"], []⟩ : GetTorrentsResponse))
        newTorrentCollector).1.recentlyActiveOnly = true :=
  (c4_flag_one_way
      (fun _ => Except.ok (⟨[sampleTorrent 1 "a"], []⟩ : GetTorrentsResponse))
      newTorrentCollector _ _ (collectD_Collect _ _)).1
    [sampleTorrent 1 "a"] rfl (by decide)

/-- C6 counterexample: identity 1 is present in batch B2 (as
`sampleTorrent 1 "a"`), yet after the merge the cache does not hold its B2
record — it holds nothing for identity 1 at all, because B2's
removed-torrents list also names it and removals run after insertions. -/
theorem c6_counterexample :
    (sampleTorrent 1 "a" ∈
      (⟨[sampleTorrent 1 "a"], [1]⟩ : GetTorrentsResponse).torrents) ∧
    goMapFind
        ((collectD
            (fun _ => Except.ok (⟨[sampleTorrent 1 "a"], [1]⟩ : GetTorrentsResponse))
            newTorrentCollector).1).torrentMap 1 ≠ some (sampleTorrent 1 "a") := by
  refine ⟨by decide, by decide⟩

/-- C6 (amended): the merge is last-write-wins per identity: for every
identity that has a record in the response's batch and is not listed in
the response's removed-torrents list, the cached record after the merge is
the last batch record for that identity — whatever the previous cache
state held for it (the statement quantifies over every prior state), with
no per-field merging. -/
theorem c6_last_write_wins (fetch : Fetcher) (tc tc' : TorrentCollector)
    (out : Except FetchError (List Torrent)) (r : GetTorrentsResponse)
    (k : Int) (t : Torrent)
    (hc : Collect fetch tc tc' out)
    (hf : fetch tc.recentlyActiveOnly = .ok r)
    (hlast : lastBatchRecord r.torrents k = some t)
    (hunrem : k ∉ r.removedTorrents) :
    goMapFind tc'.torrentMap k = some t := by
  unfold Collect at hc
  rw [hf] at hc
  obtain ⟨entries, hperm, htc, hout⟩ := hc
  rw [htc]
  show goMapFind (mergeResponse tc.torrentMap r) k = some t
  rw [mergeResponse_find, if_neg hunrem, hlast]

/-- C6 witness: a second batch overwrites identity 1's record wholesale:
the cache ends at the B2 record even though B1 stored a different one. -/
theorem c6_witness :
    goMapFind
        ((collectD
            (fun _ => Except.ok (⟨[sampleTorrent 1 "b"], []⟩ : GetTorrentsResponse))
            ((collectD
                (fun _ => Except.ok (⟨[sampleTorrent 1 "a"], []⟩ : GetTorrentsResponse))
                newTorrentCollector).1)).1).torrentMap 1 =
      some (sampleTorrent 1 "b") :=
  c6_last_write_wins _ _ _ _ (⟨[sampleTorrent 1 "b"], []⟩ : GetTorrentsResponse)
    1 (sampleTorrent 1 "b") (collectD_Collect _ _) rfl (by decide) (by decide)

/-- C7 counterexample: from the same cache state and the same successfully
fetched batch, `Collect` may return the two-record snapshot in either
order — Go's map iteration order is unspecified, so two polls over
identical contents need not produce identically ordered sequences, and the
claimed determinism fails. -/
theorem c7_counterexample :
    Collect
      (fun _ => Except.ok
        (⟨[sampleTorrent 1 "a", sampleTorrent 2 "b"], []⟩ : GetTorrentsResponse))
      newTorrentCollector
      (⟨true, [(1, sampleTorrent 1 "a"), (2, sampleTorrent 2 "b")]⟩ : TorrentCollector)
      (Except.ok [sampleTorrent 1 "a", sampleTorrent 2 "b"]) ∧
    Collect
      (fun _ => Except.ok
        (⟨[sampleTorrent 1 "a", sampleTorrent 2 "b"], []⟩ : GetTorrentsResponse))
      newTorrentCollector
      (⟨true, [(1, sampleTorrent 1 "a"), (2, sampleTorrent 2 "b")]⟩ : TorrentCollector)
      (Except.ok [sampleTorrent 2 "b", sampleTorrent 1 "a"]) ∧
    ([sampleTorrent 1 "a", sampleTorrent 2 "b"] : List Torrent) ≠
      [sampleTorrent 2 "b", sampleTorrent 1 "a"] := by
  refine ⟨?_, ?_, by decide⟩
  · exact ⟨[(1, sampleTorrent 1 "a"), (2, sampleTorrent 2 "b")],
      List.Perm.refl _, rfl, rfl⟩
  · exact ⟨[(2, sampleTorrent 2 "b"), (1, sampleTorrent 1 "a")],
      List.Perm.swap _ _ _, rfl, rfl⟩

/-- C7 (amended): the snapshot is deterministic only up to permutation:
two successful polls from the same state with the same fetcher reach the
same new collector state, and their snapshots are permutations of each
other — namely of the merged map's values — but their order is
unspecified. -/
theorem c7_snapshot_perm (fetch : Fetcher) (tc tc₁ tc₂ : TorrentCollector)
    (ts₁ ts₂ : List Torrent)
    (h₁ : Collect fetch tc tc₁ (.ok ts₁))
    (h₂ : Collect fetch tc tc₂ (.ok ts₂)) :
    tc₁ = tc₂ ∧ ts₁.Perm ts₂ ∧ ts₁.Perm (tc₁.torrentMap.map Prod.snd) := by
  unfold Collect at h₁ h₂
  cases hf : fetch tc.recentlyActiveOnly with
  | error e =>
      rw [hf] at h₁
      exact Except.noConfusion h₁.2
  | ok r =>
      rw [hf] at h₁ h₂
      obtain ⟨e₁, hp₁, ht₁, ho₁⟩ := h₁
      obtain ⟨e₂, hp₂, ht₂, ho₂⟩ := h₂
      injection ho₁ with ho₁
      injection ho₂ with ho₂
      have hpe : (e₁.map Prod.snd).Perm (e₂.map Prod.snd) :=
        (hp₁.symm.trans hp₂).map Prod.snd
      have hlen : (e₁.map Prod.snd).length = (e₂.map Prod.snd).length :=
        hpe.length_eq
      refine ⟨?_, ?_, ?_⟩
      · rw [ht₁, ht₂, hlen]
      · rw [ho₁, ho₂]
        exact hpe
      · rw [ho₁, ht₁]
        show (e₁.map Prod.snd).Perm ((mergeResponse tc.torrentMap r).map Prod.snd)
        exact (hp₁.map Prod.snd).symm

/-- C7 witness: a concrete instance of the amended statement, with both
polls taken through the deterministic rendering. -/
theorem c7_witness :
    ((collectD
        (fun _ => Except.ok (⟨[sampleTorrent 1 "a"], []⟩ : GetTorrentsResponse))
        newTorrentCollector).1 =
      (collectD
        (fun _ => Except.ok (⟨[sampleTorrent 1 "a"], []⟩ : GetTorrentsResponse))
        newTorrentCollector).1) ∧
    ([sampleTorrent 1 "a"] : List Torrent).Perm [sampleTorrent 1 "a"] ∧
    ([sampleTorrent 1 "a"] : List Torrent).Perm
      (((collectD
          (fun _ => Except.ok (⟨[sampleTorrent 1 "a"], []⟩ : GetTorrentsResponse))
          newTorrentCollector).1).torrentMap.map Prod.snd) :=
  c7_snapshot_perm _ newTorrentCollector _ _ _ _
    (collectD_Collect _ _) (collectD_Collect _ _)

/-- Actions other than the two lock operations leave the lock state. -/
theorem lockStateUpdate_id (held : Bool) (a : Action)
    (h1 : a ≠ Action.lockAcquire) (h2 : a ≠ Action.lockRelease) :
    lockStateUpdate held a = held := by
  cases a <;> first | rfl | exact absurd rfl h1 | exact absurd rfl h2

/-- `markHeld` distributes over append, threading the lock state. -/
theorem markHeld_append (l₁ l₂ : List Action) (held : Bool) :
    markHeld (l₁ ++ l₂) held =
      markHeld l₁ held ++ markHeld l₂ (lockStateAfter l₁ held) := by
  induction l₁ generalizing held with
  | nil => rfl
  | cons a l₁ ih =>
      show (a, lockStateUpdate held a) ::
          markHeld (l₁ ++ l₂) (lockStateUpdate held a) =
        ((a, lockStateUpdate held a) :: markHeld l₁ (lockStateUpdate held a)) ++
          markHeld l₂ (lockStateAfter (a :: l₁) held)
      rw [ih, List.cons_append]
      rfl

/-- The lock state threads through appended stretches. -/
theorem lockStateAfter_append (l₁ l₂ : List Action) (held : Bool) :
    lockStateAfter (l₁ ++ l₂) held =
      lockStateAfter l₂ (lockStateAfter l₁ held) := by
  unfold lockStateAfter
  rw [List.foldl_append]

/-- Over a stretch with no lock operations, every action keeps the
surrounding lock state. -/
theorem markHeld_no_lock (l : List Action) (held : Bool)
    (h : ∀ a ∈ l, a ≠ Action.lockAcquire ∧ a ≠ Action.lockRelease) :
    markHeld l held = l.map (fun a => (a, held)) := by
  induction l with
  | nil => rfl
  | cons a l ih =>
      have ha := h a (List.mem_cons_self a l)
      unfold markHeld
      rw [lockStateUpdate_id held a ha.1 ha.2,
        ih (fun b hb => (h b (List.mem_cons_of_mem a hb)))]
      rfl

/-- A stretch with no lock operations leaves the lock state unchanged. -/
theorem lockStateAfter_no_lock (l : List Action) (held : Bool)
    (h : ∀ a ∈ l, a ≠ Action.lockAcquire ∧ a ≠ Action.lockRelease) :
    lockStateAfter l held = held := by
  induction l with
  | nil => rfl
  | cons a l ih =>
      have ha := h a (List.mem_cons_self a l)
      unfold lockStateAfter at ih ⊢
      rw [List.foldl_cons, lockStateUpdate_id held a ha.1 ha.2]
      exact ih (fun b hb => (h b (List.mem_cons_of_mem a hb)))

/-- Neither loop of the merge contains a lock operation. -/
theorem mapAssignW_no_lock (ts : List Torrent) :
    ∀ a ∈ ts.map (fun t => Action.mapAssignW t.id),
      a ≠ Action.lockAcquire ∧ a ≠ Action.lockRelease := by
  intro a ha
  obtain ⟨t, _, rfl⟩ := List.mem_map.mp ha
  exact ⟨fun h => Action.noConfusion h, fun h => Action.noConfusion h⟩

/-- The deletion loop contains no lock operation. -/
theorem mapEraseW_no_lock (ids : List Int) :
    ∀ a ∈ ids.map Action.mapEraseW,
      a ≠ Action.lockAcquire ∧ a ≠ Action.lockRelease := by
  intro a ha
  obtain ⟨i, _, rfl⟩ := List.mem_map.mp ha
  exact ⟨fun h => Action.noConfusion h, fun h => Action.noConfusion h⟩

/-- The emission loop contains no lock operation. -/
theorem emitMetric_no_lock (ts : List Torrent) :
    ∀ a ∈ ts.map Action.emitMetric,
      a ≠ Action.lockAcquire ∧ a ≠ Action.lockRelease := by
  intro a ha
  obtain ⟨t, _, rfl⟩ := List.mem_map.mp ha
  exact ⟨fun h => Action.noConfusion h, fun h => Action.noConfusion h⟩

/-- The conditional flag write contains no lock operation. -/
theorem writeFlag_no_lock (c : Prop) [Decidable c] :
    ∀ a ∈ (if c then [Action.writeFlag] else []),
      a ≠ Action.lockAcquire ∧ a ≠ Action.lockRelease := by
  intro a ha
  split at ha
  · rw [List.mem_singleton.mp ha]
    exact ⟨fun h => Action.noConfusion h, fun h => Action.noConfusion h⟩
  · cases ha

/-- Marked trace of a successful poll: the merge loops and the snapshot
iteration run with the lock held; the flag read, the fetch, the flag write
and the emissions run with the lock free. -/
theorem markHeld_collectTrace_ok (fetch : Fetcher) (tc : TorrentCollector)
    (r : GetTorrentsResponse) (hf : fetch tc.recentlyActiveOnly = .ok r) :
    markHeld (collectTrace fetch tc) false =
      (Action.readFlag, false) ::
      (Action.fetchCall tc.recentlyActiveOnly, false) ::
      (Action.lockAcquire, true) ::
      (r.torrents.map (fun t => (Action.mapAssignW t.id, true)) ++
       r.removedTorrents.map (fun i => (Action.mapEraseW i, true)) ++
       [(Action.mapIterateR, true), (Action.lockRelease, false)] ++
       (if ((mergeResponse tc.torrentMap r).map Prod.snd).length > 0 then
          [(Action.writeFlag, false)] else []) ++
       ((mergeResponse tc.torrentMap r).map Prod.snd).map
         (fun t => (Action.emitMetric t, false))) := by
  have hA : markHeld (r.torrents.map (fun t => Action.mapAssignW t.id)) true =
      r.torrents.map (fun t => (Action.mapAssignW t.id, true)) := by
    rw [markHeld_no_lock _ true (mapAssignW_no_lock r.torrents), List.map_map]
    rfl
  have hB : markHeld (r.removedTorrents.map Action.mapEraseW) true =
      r.removedTorrents.map (fun i => (Action.mapEraseW i, true)) := by
    rw [markHeld_no_lock _ true (mapEraseW_no_lock r.removedTorrents), List.map_map]
    rfl
  have hC : markHeld [Action.mapIterateR, Action.lockRelease] true =
      [(Action.mapIterateR, true), (Action.lockRelease, false)] := rfl
  have hD : markHeld
      (if ((mergeResponse tc.torrentMap r).map Prod.snd).length > 0 then
        [Action.writeFlag] else []) false =
      (if ((mergeResponse tc.torrentMap r).map Prod.snd).length > 0 then
        [(Action.writeFlag, false)] else []) := by
    rw [markHeld_no_lock _ false (writeFlag_no_lock _),
      apply_ite (List.map (fun a => (a, false)))]
    simp only [List.map_cons, List.map_nil]
  have hE : markHeld
      (((mergeResponse tc.torrentMap r).map Prod.snd).map Action.emitMetric) false =
      ((mergeResponse tc.torrentMap r).map Prod.snd).map
        (fun t => (Action.emitMetric t, false)) := by
    rw [markHeld_no_lock _ false (emitMetric_no_lock _), List.map_map]
    rfl
  have hA' : lockStateAfter (r.torrents.map (fun t => Action.mapAssignW t.id)) true
      = true := lockStateAfter_no_lock _ true (mapAssignW_no_lock r.torrents)
  have hB' : lockStateAfter (r.removedTorrents.map Action.mapEraseW) true = true :=
    lockStateAfter_no_lock _ true (mapEraseW_no_lock r.removedTorrents)
  have hC' : lockStateAfter [Action.mapIterateR, Action.lockRelease] true = false :=
    rfl
  have hD' : lockStateAfter
      (if ((mergeResponse tc.torrentMap r).map Prod.snd).length > 0 then
        [Action.writeFlag] else []) false = false :=
    lockStateAfter_no_lock _ false (writeFlag_no_lock _)
  unfold collectTrace
  rw [hf]
  show (Action.readFlag, false) ::
      (Action.fetchCall tc.recentlyActiveOnly, false) ::
      (Action.lockAcquire, true) :: markHeld _ true = _
  simp only [markHeld_append, lockStateAfter_append, hA, hB, hC, hD, hE,
    hA', hB', hC', hD']

/-- C8 (amended): in every poll's trace, every access to the shared
`torrentMap` happens with the mutex held, while the network fetch AND both
accesses to the `recentlyActiveOnly` flag (its read at the start and its
conditional write after the merge) happen with the mutex free — the flag,
contrary to the claim, is not protected by the critical section. -/
theorem c8_lock_discipline (fetch : Fetcher) (tc : TorrentCollector) :
    ∀ p ∈ markHeld (collectTrace fetch tc) false,
      (p.1.isMapAccess = true → p.2 = true) ∧
      (p.1.isFetchCall = true → p.2 = false) ∧
      (p.1.isFlagAccess = true → p.2 = false) := by
  intro p hp
  cases hf : fetch tc.recentlyActiveOnly with
  | error e =>
      unfold collectTrace at hp
      rw [hf] at hp
      have hp' : p ∈ [(Action.readFlag, false),
          (Action.fetchCall tc.recentlyActiveOnly, false)] := hp
      rcases List.mem_cons.mp hp' with rfl | hp'
      · exact ⟨fun h => (nomatch h), fun _ => rfl, fun _ => rfl⟩
      rcases List.mem_cons.mp hp' with rfl | hp'
      · exact ⟨fun h => (nomatch h), fun _ => rfl, fun _ => rfl⟩
      cases hp'
  | ok r =>
      rw [markHeld_collectTrace_ok fetch tc r hf] at hp
      rcases List.mem_cons.mp hp with rfl | hp
      · exact ⟨fun h => (nomatch h), fun _ => rfl, fun _ => rfl⟩
      rcases List.mem_cons.mp hp with rfl | hp
      · exact ⟨fun h => (nomatch h), fun _ => rfl, fun _ => rfl⟩
      rcases List.mem_cons.mp hp with rfl | hp
      · exact ⟨fun _ => rfl, fun h => (nomatch h), fun h => (nomatch h)⟩
      simp only [List.append_assoc, List.mem_append] at hp
      rcases hp with hp | hp | hp | hp | hp
      · obtain ⟨t, _, rfl⟩ := List.mem_map.mp hp
        exact ⟨fun _ => rfl, fun h => (nomatch h), fun h => (nomatch h)⟩
      · obtain ⟨i, _, rfl⟩ := List.mem_map.mp hp
        exact ⟨fun _ => rfl, fun h => (nomatch h), fun h => (nomatch h)⟩
      · rcases List.mem_cons.mp hp with rfl | hp
        · exact ⟨fun _ => rfl, fun h => (nomatch h), fun h => (nomatch h)⟩
        rcases List.mem_cons.mp hp with rfl | hp
        · exact ⟨fun h => (nomatch h), fun h => (nomatch h), fun h => (nomatch h)⟩
        cases hp
      · split at hp
        · rw [List.mem_singleton.mp hp]
          exact ⟨fun h => (nomatch h), fun h => (nomatch h), fun _ => rfl⟩
        · cases hp
      · obtain ⟨t, _, rfl⟩ := List.mem_map.mp hp
        exact ⟨fun h => (nomatch h), fun h => (nomatch h), fun h => (nomatch h)⟩

/-- C8 counterexample: concrete flag accesses outside the critical
section: the flag read that chooses the fetch mode happens before the lock
is taken, and the flag write after a successful merge happens after the
lock is released. -/
theorem c8_counterexample :
    ((Action.readFlag, false) ∈
      markHeld
        (collectTrace (fun _ => Except.error (FetchError.fetchFailed "e"))
          newTorrentCollector) false) ∧
    Action.isFlagAccess Action.readFlag = true ∧
    ((Action.writeFlag, false) ∈
      markHeld
        (collectTrace
          (fun _ => Except.ok (⟨[sampleTorrent 1 "a"], []⟩ : GetTorrentsResponse))
          newTorrentCollector) false) ∧
    Action.isFlagAccess Action.writeFlag = true := by
  refine ⟨by decide, rfl, by decide, rfl⟩

/-- C8 witness: the map assignment for identity 1 in a successful poll's
trace runs with the mutex held. -/
theorem c8_witness :
    ((Action.mapAssignW 1, true).1.isMapAccess = true →
      ((Action.mapAssignW 1, true) : Action × Bool).2 = true) ∧
    ((Action.mapAssignW 1, true).1.isFetchCall = true →
      ((Action.mapAssignW 1, true) : Action × Bool).2 = false) ∧
    ((Action.mapAssignW 1, true).1.isFlagAccess = true →
      ((Action.mapAssignW 1, true) : Action × Bool).2 = false) :=
  c8_lock_discipline
    (fun _ => Except.ok (⟨[sampleTorrent 1 "a"], []⟩ : GetTorrentsResponse))
    newTorrentCollector (Action.mapAssignW 1, true) (by decide)

end TransmissionExporter
